import Mathlib

/-!
Verification of the tool-discovery engine of the MCP vector proxy
(`src/tray.ts`): the catalog fingerprint, the incremental index builder
(`buildIndex`), the cosine-similarity ranking of `discover_tools`, and the
`execute_tool` / `batch_execute` / readiness behaviour of the request router.

The TypeScript is embedded shallowly:

* strings stay `String` (JavaScript's default array sort on strings is
  lexicographic on code units; we use Lean's lexicographic `String` order,
  which agrees on the ASCII data handled here);
* embedding vectors (`number[]`) become `List ℚ` — the claims about them are
  exact-equality and caching claims, not rounding claims;
* the similarity score, which genuinely divides by square roots, is a real
  number (`ℝ`);
* the opaque `inputSchema` value is carried as its `JSON.stringify` image
  (`Option String`, `none` when the field is absent, serialized as "\x7b\x7d");
* the embedding model (`embed`), the upstream `callTool`, and the snapshot
  file write are external effects and enter as explicit function/outcome
  parameters; the number of embedding-provider calls is returned alongside
  the result so that the incrementality/idempotence claims can be stated.
-/

namespace VectorProxy

/-- One tool as returned by `routerClient.listTools()`: `name`, optional
`description` (`tool.description ?? ""` is applied at use sites), and the
opaque `inputSchema`, modelled by its serialized JSON (`none` = absent). -/
structure LiveTool where
  name : String
  description : Option String
  inputSchema : Option String
deriving DecidableEq, Repr

/-- The serialization `JSON.stringify(t.inputSchema ?? \x7b\x7d)` used by
`fingerprint`: an absent schema serializes as "\x7b\x7d". -/
def schemaString (s : Option String) : String := s.getD ("\x7b\x7d")

/-- One indexed tool (interface `ToolEntry` of `tray.ts`). -/
structure ToolEntry where
  name : String
  description : String
  inputSchema : Option String
  embedding : List ℚ
deriving DecidableEq, Repr

/-- The in-memory snapshot (interface `ToolIndex` of `tray.ts`). The initial
module state is `⟨[], "", ""⟩`. -/
structure ToolIndex where
  tools : List ToolEntry
  indexedAt : String
  fingerprint : String
deriving DecidableEq, Repr

/-- The string contributed by one tool to the fingerprint:
`` `${t.name}|${t.description ?? ""}|${JSON.stringify(t.inputSchema ?? {})}` ``. -/
def toolLine (t : LiveTool) : String :=
  t.name ++ ("|") ++ t.description.getD ("") ++ ("|") ++ schemaString t.inputSchema

/-- The catalog fingerprint of `tray.ts`: map every tool to its `toolLine`,
sort the strings (JavaScript default lexicographic sort, stable merge sort
here), and join with newlines. -/
def fingerprint (tools : List LiveTool) : String :=
  String.intercalate ("\n") ((tools.map toolLine).mergeSort (fun a b => decide (a ≤ b)))

/-! Transitivity and totality of the string comparator used by `fingerprint`. -/

theorem stringLE_trans (a b c : String) :
    (fun a b : String => decide (a ≤ b)) a b →
    (fun a b : String => decide (a ≤ b)) b c →
    (fun a b : String => decide (a ≤ b)) a c := by
  simp only [decide_eq_true_eq]
  exact le_trans

theorem stringLE_total (a b : String) :
    ((fun a b : String => decide (a ≤ b)) a b || (fun a b : String => decide (a ≤ b)) b a) := by
  simp only [Bool.or_eq_true, decide_eq_true_eq]
  exact le_total a b

/-- CLAIM C3 (fingerprint order-independence): permuting the catalog's entry
order yields the same fingerprint string. -/
theorem fingerprint_perm_invariant (l l' : List LiveTool) (h : l.Perm l') :
    fingerprint l = fingerprint l' := by
  unfold fingerprint
  congr 1
  have hperm : ((l.map toolLine).mergeSort (fun a b => decide (a ≤ b))).Perm
      ((l'.map toolLine).mergeSort (fun a b => decide (a ≤ b))) :=
    (List.mergeSort_perm _ _).trans ((h.map toolLine).trans (List.mergeSort_perm _ _).symm)
  have hs1 : ((l.map toolLine).mergeSort (fun a b => decide (a ≤ b))).Sorted (· ≤ ·) :=
    List.Pairwise.imp (fun hab => by simpa using hab)
      (List.sorted_mergeSort stringLE_trans stringLE_total (l.map toolLine))
  have hs2 : ((l'.map toolLine).mergeSort (fun a b => decide (a ≤ b))).Sorted (· ≤ ·) :=
    List.Pairwise.imp (fun hab => by simpa using hab)
      (List.sorted_mergeSort stringLE_trans stringLE_total (l'.map toolLine))
  exact List.eq_of_perm_of_sorted hperm hs1 hs2

/-- Witness for C3 at a concrete two-element catalog and its swap. -/
theorem fingerprint_perm_invariant_witness :
    ([⟨("a"), some ("da"), none⟩, ⟨("b"), some ("db"), none⟩] : List LiveTool).Perm
      [⟨("b"), some ("db"), none⟩, ⟨("a"), some ("da"), none⟩] ∧
    fingerprint [⟨("a"), some ("da"), none⟩, ⟨("b"), some ("db"), none⟩] =
      fingerprint [⟨("b"), some ("db"), none⟩, ⟨("a"), some ("da"), none⟩] := by
  refine ⟨by decide, fingerprint_perm_invariant _ _ (by decide)⟩

/-! The similarity score. The source loop

```
for (let i = 0; i < a.length; i++) {
  dot += a[i] * b[i]; magA += a[i] * a[i]; magB += b[i] * b[i];
}
```

runs over the indices of `a`; for the equal-length vectors produced by one
embedding model (the only inputs on which the JavaScript result is a number
at all — index overruns would make it `NaN`) it computes the three sums
below. -/

/-- Dot product accumulator `dot` of `cosine` in `tray.ts`. -/
def dotP (a b : List ℚ) : ℚ := (List.zipWith (· * ·) a b).sum

/-- Squared-magnitude accumulator (`magA` for the first argument, `magB` for
the second) of `cosine` in `tray.ts`. -/
def magSq (a : List ℚ) : ℚ := (List.zipWith (· * ·) a a).sum

/-- The `cosine` function of `tray.ts`:
`denom = Math.sqrt(magA) * Math.sqrt(magB); return denom === 0 ? 0 : dot / denom`. -/
noncomputable def cosine (a b : List ℚ) : ℝ :=
  let denom := Real.sqrt ((magSq a : ℚ) : ℝ) * Real.sqrt ((magSq b : ℚ) : ℝ)
  if denom = 0 then 0 else ((dotP a b : ℚ) : ℝ) / denom

/-- Sum form of the zipWith products, over `Finset.range` of the shorter
length. -/
theorem zipWith_mul_sum_eq (a b : List ℚ) :
    (List.zipWith (· * ·) a b).sum =
      ∑ i ∈ Finset.range (min a.length b.length), a.getD i 0 * b.getD i 0 := by
  induction a generalizing b with
  | nil => simp
  | cons x xs ih =>
    cases b with
    | nil => simp
    | cons y ys =>
      simp only [List.zipWith_cons_cons, List.sum_cons, List.length_cons]
      rw [ih ys]
      have hmin : min (xs.length + 1) (ys.length + 1) = min xs.length ys.length + 1 := by
        omega
      rw [hmin, Finset.sum_range_succ']
      simp [add_comm]

theorem magSq_eq_sum (a : List ℚ) :
    magSq a = ∑ i ∈ Finset.range a.length, a.getD i 0 * a.getD i 0 := by
  have := zipWith_mul_sum_eq a a
  simpa [magSq] using this

theorem magSq_nonneg (a : List ℚ) : 0 ≤ magSq a := by
  rw [magSq_eq_sum]
  exact Finset.sum_nonneg fun i _ => mul_self_nonneg _

/-- CLAIM C6 (zero-vector safety): whenever either vector has zero magnitude
(in particular an all-zero embedding), `cosine` returns exactly `0`. In this
real-valued model no `NaN` can arise, so comparisons of scores are total; the
source achieves the same by the `denom === 0` guard, which this theorem
exercises. -/
theorem cosine_zero_of_zero_magnitude (a b : List ℚ)
    (h : magSq a = 0 ∨ magSq b = 0) : cosine a b = 0 := by
  unfold cosine
  have hz : Real.sqrt ((magSq a : ℚ) : ℝ) * Real.sqrt ((magSq b : ℚ) : ℝ) = 0 := by
    rcases h with h | h <;> rw [h] <;> simp
  simp [hz]

/-- Witness for C6: the all-zero vector `[0, 0]` against `[3, 4]` has
similarity exactly `0`. -/
theorem cosine_zero_of_zero_magnitude_witness :
    (magSq [(0 : ℚ), 0] = 0 ∨ magSq [(3 : ℚ), 4] = 0) ∧
      cosine [(0 : ℚ), 0] [(3 : ℚ), 4] = 0 :=
  ⟨Or.inl (by simp [magSq]), cosine_zero_of_zero_magnitude _ _ (Or.inl (by simp [magSq]))⟩

/-- Cauchy–Schwarz for the accumulators of `cosine`. -/
theorem sq_dotP_le (a b : List ℚ) :
    ((dotP a b : ℚ) : ℝ) ^ 2 ≤ ((magSq a : ℚ) : ℝ) * ((magSq b : ℚ) : ℝ) := by
  have hd : ((dotP a b : ℚ) : ℝ) =
      ∑ i ∈ Finset.range (min a.length b.length),
        ((a.getD i 0 : ℚ) : ℝ) * ((b.getD i 0 : ℚ) : ℝ) := by
    rw [dotP, zipWith_mul_sum_eq]
    push_cast
    rfl
  have hma : ((magSq a : ℚ) : ℝ) =
      ∑ i ∈ Finset.range a.length, ((a.getD i 0 : ℚ) : ℝ) ^ 2 := by
    rw [magSq_eq_sum]
    push_cast
    simp [sq]
  have hmb : ((magSq b : ℚ) : ℝ) =
      ∑ i ∈ Finset.range b.length, ((b.getD i 0 : ℚ) : ℝ) ^ 2 := by
    rw [magSq_eq_sum]
    push_cast
    simp [sq]
  have hcs := Finset.sum_mul_sq_le_sq_mul_sq (Finset.range (min a.length b.length))
    (fun i => ((a.getD i 0 : ℚ) : ℝ)) (fun i => ((b.getD i 0 : ℚ) : ℝ))
  have hsub_a : ∑ i ∈ Finset.range (min a.length b.length), ((a.getD i 0 : ℚ) : ℝ) ^ 2 ≤
      ∑ i ∈ Finset.range a.length, ((a.getD i 0 : ℚ) : ℝ) ^ 2 :=
    Finset.sum_le_sum_of_subset_of_nonneg
      (Finset.range_subset.mpr (min_le_left _ _)) (fun i _ _ => sq_nonneg _)
  have hsub_b : ∑ i ∈ Finset.range (min a.length b.length), ((b.getD i 0 : ℚ) : ℝ) ^ 2 ≤
      ∑ i ∈ Finset.range b.length, ((b.getD i 0 : ℚ) : ℝ) ^ 2 :=
    Finset.sum_le_sum_of_subset_of_nonneg
      (Finset.range_subset.mpr (min_le_right _ _)) (fun i _ _ => sq_nonneg _)
  rw [hd, hma, hmb]
  refine le_trans hcs (mul_le_mul hsub_a hsub_b ?_ ?_)
  · exact Finset.sum_nonneg fun i _ => sq_nonneg _
  · exact le_trans (Finset.sum_nonneg fun i _ => sq_nonneg _) hsub_a

/-- The similarity score always lies in `[-1, 1]`. -/
theorem abs_cosine_le_one (a b : List ℚ) : |cosine a b| ≤ 1 := by
  unfold cosine
  by_cases h : Real.sqrt ((magSq a : ℚ) : ℝ) * Real.sqrt ((magSq b : ℚ) : ℝ) = 0
  · simp [h]
  · rw [if_neg h]
    have hA0 : (0 : ℝ) ≤ ((magSq a : ℚ) : ℝ) := by exact_mod_cast magSq_nonneg a
    have hnn : 0 ≤ Real.sqrt ((magSq a : ℚ) : ℝ) * Real.sqrt ((magSq b : ℚ) : ℝ) :=
      mul_nonneg (Real.sqrt_nonneg _) (Real.sqrt_nonneg _)
    have hpos : 0 < Real.sqrt ((magSq a : ℚ) : ℝ) * Real.sqrt ((magSq b : ℚ) : ℝ) :=
      lt_of_le_of_ne hnn (Ne.symm h)
    rw [abs_div, abs_of_pos hpos]
    refine div_le_one_of_le₀ ?_ hnn
    have habs : |((dotP a b : ℚ) : ℝ)| ≤
        Real.sqrt (((magSq a : ℚ) : ℝ) * ((magSq b : ℚ) : ℝ)) :=
      Real.abs_le_sqrt (sq_dotP_le a b)
    rwa [Real.sqrt_mul hA0] at habs

/-- The relevance field of a discover result:
`parseFloat(r.score.toFixed(4))`, i.e. the score rounded to 4 decimals
(JavaScript's `toFixed` rounds half away from zero for positive ties exactly
like `round` here). -/
noncomputable def roundTo4 (x : ℝ) : ℝ := ((round (x * 10000) : ℤ) : ℝ) / 10000

theorem round_le_round {x y : ℝ} (h : x ≤ y) : round x ≤ round y := by
  rw [round_eq, round_eq]
  exact Int.floor_mono (by linarith)

theorem roundTo4_bounds {x : ℝ} (h1 : -1 ≤ x) (h2 : x ≤ 1) :
    -1 ≤ roundTo4 x ∧ roundTo4 x ≤ 1 := by
  have hub : round (x * 10000) ≤ 10000 := by
    have := round_le_round (mul_le_mul_of_nonneg_right h2 (by norm_num : (0 : ℝ) ≤ 10000))
    rw [one_mul] at this
    refine le_trans this ?_
    rw [show ((10000 : ℝ)) = (((10000 : ℤ) : ℝ)) by norm_num, round_intCast]
  have hlb : -10000 ≤ round (x * 10000) := by
    have := round_le_round (mul_le_mul_of_nonneg_right h1 (by norm_num : (0 : ℝ) ≤ 10000))
    rw [show ((-1 : ℝ) * 10000) = (((-10000 : ℤ) : ℝ)) by norm_num, round_intCast] at this
    exact this
  constructor
  · rw [roundTo4, le_div_iff₀ (by norm_num : (0 : ℝ) < 10000)]
    have hcast : ((-10000 : ℤ) : ℝ) ≤ ((round (x * 10000) : ℤ) : ℝ) := by exact_mod_cast hlb
    push_cast at hcast
    linarith
  · rw [roundTo4, div_le_one (by norm_num : (0 : ℝ) < 10000)]
    exact_mod_cast hub

/-! The `discover_tools` ranking pipeline:

```
toolIndex.tools
  .map((t) => (\x7b tool: t, score: cosine(queryEmbedding, t.embedding) \x7d))
  .sort((a, b) => b.score - a.score)
  .slice(0, limit)
```

JavaScript's numeric-comparator sort places `a` before `b` when the
comparator is nonpositive (`b.score ≤ a.score`) and is stable; `mergeSort`
with the comparator below has exactly those semantics. `slice(0, limit)` for
a nonnegative integer `limit` is `take limit`. -/

/-- One scored entry paired with its score. -/
noncomputable def scoreTools (q : List ℚ) (tools : List ToolEntry) : List (ToolEntry × ℝ) :=
  tools.map fun t => (t, cosine q t.embedding)

/-- The comparator `(a, b) => b.score - a.score` of the source, as the
"a may precede b" Boolean relation: nonpositive difference, i.e.
`b.score ≤ a.score`. -/
noncomputable def scoreLE (x y : ToolEntry × ℝ) : Bool := decide (y.2 ≤ x.2)

/-- The ranked, truncated result list of `discover_tools`. -/
noncomputable def rankTools (q : List ℚ) (tools : List ToolEntry) (limit : ℕ) :
    List (ToolEntry × ℝ) :=
  ((scoreTools q tools).mergeSort scoreLE).take limit

/-- One entry of the JSON array returned by `discover_tools`. -/
structure DiscoverItem where
  name : String
  description : String
  relevance : ℝ
  inputSchema : Option String

/-- The final `discover_tools` payload: each ranked entry projected to
`\x7bname, description, relevance: parseFloat(score.toFixed(4)), inputSchema\x7d`. -/
noncomputable def discoverResults (q : List ℚ) (tools : List ToolEntry) (limit : ℕ) :
    List DiscoverItem :=
  (rankTools q tools limit).map fun r => ⟨r.1.name, r.1.description, roundTo4 r.2, r.1.inputSchema⟩

theorem scoreLE_trans (a b c : ToolEntry × ℝ) :
    scoreLE a b → scoreLE b c → scoreLE a c := by
  simp only [scoreLE, decide_eq_true_eq]
  intro h1 h2
  exact le_trans h2 h1

theorem scoreLE_total (a b : ToolEntry × ℝ) : (scoreLE a b || scoreLE b a) := by
  simp only [scoreLE, Bool.or_eq_true, decide_eq_true_eq]
  exact le_total b.2 a.2

/-- CLAIM C4, amended (ranking order and truncation): the `discover_tools`
ranking is the input scored list stably sorted by descending cosine
similarity and truncated to the first `limit` elements. Concretely: the
output is pairwise descending in score; its length is `min limit N`; it is
the `limit`-prefix of the full sort; the full sort is a permutation of the
scored input; and ties are broken by original catalog order, expressed by
the standard stability characterisation that restricting the sorted list to
any fixed score value leaves the input's relative order unchanged. The
original claim's "minimum of 1 result" is false — `slice(0, limit)` imposes
no minimum, see the counterexample. -/
theorem discover_ranking (q : List ℚ) (tools : List ToolEntry) (limit : ℕ) :
    (rankTools q tools limit).Pairwise (fun x y => y.2 ≤ x.2) ∧
    (rankTools q tools limit).length = min limit tools.length ∧
    rankTools q tools limit = ((scoreTools q tools).mergeSort scoreLE).take limit ∧
    ((scoreTools q tools).mergeSort scoreLE).Perm (scoreTools q tools) ∧
    ∀ s : ℝ, ((scoreTools q tools).mergeSort scoreLE).filter (fun x => decide (x.2 = s)) =
      (scoreTools q tools).filter (fun x => decide (x.2 = s)) := by
  refine ⟨?_, ?_, rfl, List.mergeSort_perm _ _, ?_⟩
  · have hs := List.sorted_mergeSort scoreLE_trans scoreLE_total (scoreTools q tools)
    have hs' : ((scoreTools q tools).mergeSort scoreLE).Pairwise (fun x y => y.2 ≤ x.2) :=
      List.Pairwise.imp (fun hab => by simpa [scoreLE] using hab) hs
    exact hs'.sublist (List.take_sublist _ _)
  · simp [rankTools, scoreTools]
  · intro s
    set l := scoreTools q tools with hl
    set p : ToolEntry × ℝ → Bool := fun x => decide (x.2 = s) with hp
    have hpair : (l.filter p).Pairwise (fun x y => scoreLE x y = true) := by
      refine List.pairwise_of_forall_mem_list ?_
      intro x hx y hy
      have hxs : x.2 = s := by simpa [hp] using (List.of_mem_filter hx)
      have hys : y.2 = s := by simpa [hp] using (List.of_mem_filter hy)
      simp [scoreLE, hxs, hys]
    have hsub : List.Sublist (l.filter p) (l.mergeSort scoreLE) :=
      List.sublist_mergeSort scoreLE_trans scoreLE_total hpair (List.filter_sublist l)
    have hself : (l.filter p).filter p = l.filter p :=
      List.filter_eq_self.mpr fun a ha => List.of_mem_filter ha
    have hsub2 : List.Sublist (l.filter p) ((l.mergeSort scoreLE).filter p) :=
      hself ▸ hsub.filter p
    have hlen : ((l.mergeSort scoreLE).filter p).length = (l.filter p).length :=
      ((List.mergeSort_perm l scoreLE).filter p).length_eq
    exact (hsub2.eq_of_length hlen.symm).symm

/-- Counterexample to C4 as stated: with a one-entry snapshot and `limit = 0`
the returned list is empty, not "a minimum of 1 result" — the source
truncates with `slice(0, limit)` and never enforces a lower bound. -/
theorem discover_limit_zero_counterexample :
    (discoverResults [(1 : ℚ)] [⟨("a"), (""), none, [(1 : ℚ)]⟩] 0).length = 0 := by
  simp [discoverResults, rankTools]

/-- CLAIM C5, amended (relevance range and rounding): every relevance value
returned by `discover_tools` equals the cosine similarity of the query
embedding and the matched entry's embedding rounded to 4 decimal places, and
lies in the closed interval `[-1, 1]`. The original claim's interval `[0, 1]`
is false: cosine similarity is negative for opposed vectors, see the
counterexample. -/
theorem discover_relevance_range (q : List ℚ) (tools : List ToolEntry) (limit : ℕ)
    (r : DiscoverItem) (hr : r ∈ discoverResults q tools limit) :
    -1 ≤ r.relevance ∧ r.relevance ≤ 1 ∧
      ∃ t ∈ tools, r.relevance = roundTo4 (cosine q t.embedding) := by
  obtain ⟨x, hx, rfl⟩ := List.mem_map.mp hr
  have hx1 : x ∈ (scoreTools q tools).mergeSort scoreLE := List.mem_of_mem_take hx
  have hx2 : x ∈ scoreTools q tools := List.mem_mergeSort.mp hx1
  obtain ⟨t, ht, rfl⟩ := List.mem_map.mp hx2
  have habs := abs_cosine_le_one q t.embedding
  obtain ⟨h1, h2⟩ := abs_le.mp habs
  obtain ⟨hb1, hb2⟩ := roundTo4_bounds h1 h2
  exact ⟨hb1, hb2, t, ht, rfl⟩

/-- Witness for C5 at a concrete one-entry snapshot and query. -/
theorem discover_relevance_range_witness :
    (⟨("a"), ("x"), roundTo4 (cosine [(1 : ℚ)] [(1 : ℚ)]), none⟩ : DiscoverItem) ∈
        discoverResults [(1 : ℚ)] [⟨("a"), ("x"), none, [(1 : ℚ)]⟩] 1 ∧
      -1 ≤ roundTo4 (cosine [(1 : ℚ)] [(1 : ℚ)]) ∧
      roundTo4 (cosine [(1 : ℚ)] [(1 : ℚ)]) ≤ 1 := by
  have hmem : (⟨("a"), ("x"), roundTo4 (cosine [(1 : ℚ)] [(1 : ℚ)]), none⟩ : DiscoverItem) ∈
      discoverResults [(1 : ℚ)] [⟨("a"), ("x"), none, [(1 : ℚ)]⟩] 1 := by
    simp [discoverResults, rankTools, scoreTools]
  have h := discover_relevance_range [(1 : ℚ)] [⟨("a"), ("x"), none, [(1 : ℚ)]⟩] 1 _ hmem
  exact ⟨hmem, h.1, h.2.1⟩

theorem cosine_one_negone : cosine [(1 : ℚ)] [(-1 : ℚ)] = -1 := by
  have h1 : magSq [(1 : ℚ)] = 1 := by norm_num [magSq]
  have h2 : magSq [(-1 : ℚ)] = 1 := by norm_num [magSq]
  have h3 : dotP [(1 : ℚ)] [(-1 : ℚ)] = -1 := by norm_num [dotP]
  unfold cosine
  rw [h1, h2, h3]
  push_cast
  rw [Real.sqrt_one]
  norm_num

theorem roundTo4_neg_one : roundTo4 (-1 : ℝ) = -1 := by
  unfold roundTo4
  rw [show ((-1 : ℝ) * 10000) = (((-10000 : ℤ) : ℝ)) by norm_num, round_intCast]
  norm_num

/-- Counterexample to C5 as stated: a discover result whose relevance is
`-1`, outside the claimed interval `[0, 1]` — the cosine of the query `[1]`
against the entry embedding `[-1]` is `-1` and rounding preserves it. -/
theorem discover_relevance_negative_counterexample :
    ¬ (∀ r ∈ discoverResults [(1 : ℚ)] [⟨("a"), (""), none, [(-1 : ℚ)]⟩] 1,
        0 ≤ r.relevance) := by
  intro h
  have hmem : (⟨("a"), (""), roundTo4 (cosine [(1 : ℚ)] [(-1 : ℚ)]), none⟩ : DiscoverItem) ∈
      discoverResults [(1 : ℚ)] [⟨("a"), (""), none, [(-1 : ℚ)]⟩] 1 := by
    simp [discoverResults, rankTools, scoreTools]
  have h0 := h _ hmem
  rw [cosine_one_negone, roundTo4_neg_one] at h0
  norm_num at h0

/-! The incremental index builder `buildIndex` of `tray.ts`. External effects
enter as parameters: `connected` models `routerClient && routerConnected`,
`reindexing` the re-entrancy flag, `diskCache` the persisted snapshot file
(`none` when the file is missing or fails to parse — both are swallowed by
the source), `persist` the outcome of the `writeFileSync`/`renameSync` pair,
`now` the timestamp, and `embedFn` the embedding model. The returned
`embedCalls` counts the calls to the Embedding Provider. -/

/-- The counts returned by a rebuild. -/
structure BuildCounts where
  added : ℕ
  removed : ℕ
  unchanged : ℕ
deriving DecidableEq, Repr

/-- The embedding-cache key `` `${name}|||${description}` ``. -/
def cacheKey (name desc : String) : String := name ++ ("|||") ++ desc

/-- Seeding the embedding cache from a list of indexed tools: the source
assigns `embeddingCache[key] = t.embedding` in list order, so a later
binding shadows an earlier one with the same key — modelled by consing to
the front and looking up the first match. -/
def seedCache (ts : List ToolEntry) (acc : List (String × List ℚ)) : List (String × List ℚ) :=
  ts.foldl (fun acc t => (cacheKey t.name t.description, t.embedding) :: acc) acc

/-- The per-tool loop of `buildIndex`: look each `(name, description)` up in
the cache; on a hit reuse the cached vector, on a miss call the Embedding
Provider with `` `${name}: ${desc}` `` and count it as `added`. Freshly
computed vectors are not inserted back into the cache (the source does not
either). Returns the new entry list (in upstream order) and the number of
provider calls. -/
def buildEntries (cache : List (String × List ℚ)) (embedFn : String → List ℚ) :
    List LiveTool → List ToolEntry × ℕ
  | [] => ([], 0)
  | t :: rest =>
    match cache.lookup (cacheKey t.name (t.description.getD (""))) with
    | some e =>
      (⟨t.name, t.description.getD (""), t.inputSchema, e⟩ ::
        (buildEntries cache embedFn rest).1, (buildEntries cache embedFn rest).2)
    | none =>
      (⟨t.name, t.description.getD (""), t.inputSchema,
          embedFn (t.name ++ (": ") ++ t.description.getD (""))⟩ ::
        (buildEntries cache embedFn rest).1, (buildEntries cache embedFn rest).2 + 1)

/-- Result of one `buildIndex` call: the in-memory snapshot afterwards, what
the call returns to (or throws at) its caller, and how many times the
Embedding Provider ran. The source wraps the body in `try ... finally`
without a `catch`, so a failing snapshot write escapes as an exception —
after `toolIndex` was already replaced. -/
structure BuildOutcome where
  index : ToolIndex
  result : Except String BuildCounts
  embedCalls : ℕ
deriving Repr

/-- The embedding cache at the start of a rebuild: seeded from the previous
in-memory snapshot, and additionally from the persisted snapshot file — but
only when the in-memory snapshot is still empty (cold start). -/
def rebuildCache (diskCache : Option ToolIndex) (idx : ToolIndex) : List (String × List ℚ) :=
  let cache0 := seedCache idx.tools []
  match diskCache with
  | some dc => if idx.tools = [] then seedCache dc.tools cache0 else cache0
  | none => cache0

theorem rebuildCache_of_ne_nil (diskCache : Option ToolIndex) (idx : ToolIndex)
    (h : idx.tools ≠ []) : rebuildCache diskCache idx = seedCache idx.tools [] := by
  cases diskCache <;> simp [rebuildCache, h]

/-- The `buildIndex` function of `tray.ts`. -/
def buildIndex (connected : Bool) (reindexing : Bool) (diskCache : Option ToolIndex)
    (persist : Except String Unit) (now : String) (embedFn : String → List ℚ)
    (idx : ToolIndex) (liveTools : List LiveTool) : BuildOutcome :=
  if ¬ connected then ⟨idx, .ok ⟨0, 0, 0⟩, 0⟩
  else if reindexing then ⟨idx, .ok ⟨0, 0, 0⟩, 0⟩
  else
    let newFingerprint := fingerprint liveTools
    if newFingerprint = idx.fingerprint ∧ idx.tools ≠ [] then
      ⟨idx, .ok ⟨0, 0, liveTools.length⟩, 0⟩
    else
      let cache := rebuildCache diskCache idx
      let liveNames := liveTools.map (·.name)
      let removed := (idx.tools.map (·.name)).filter (fun n => ¬ liveNames.contains n)
      let built := buildEntries cache embedFn liveTools
      let added := built.2
      let unchanged := built.1.length - added
      let newIndex : ToolIndex := ⟨built.1, now, newFingerprint⟩
      ⟨newIndex, persist.map (fun _ => ⟨added, removed.length, unchanged⟩), added⟩

/-- CLAIM C2 (idempotence of rebuild): if a rebuild produced a non-empty
snapshot and the upstream catalog is unchanged, the next rebuild performs
zero embedding computations, leaves the snapshot (including its timestamp)
untouched, and reports `added = 0, removed = 0, unchanged = N` with `N` the
number of catalog entries — the fingerprint guard returns the no-op result
before any work happens. -/
theorem buildIndex_idempotent (disk : Option ToolIndex) (p1 p2 : Except String Unit)
    (n1 n2 : String) (embedFn : String → List ℚ) (idx : ToolIndex) (live : List LiveTool)
    (h : (buildIndex true false disk p1 n1 embedFn idx live).index.tools ≠ []) :
    buildIndex true false disk p2 n2 embedFn
        (buildIndex true false disk p1 n1 embedFn idx live).index live =
      ⟨(buildIndex true false disk p1 n1 embedFn idx live).index,
        .ok ⟨0, 0, live.length⟩, 0⟩ := by
  have hfp : (buildIndex true false disk p1 n1 embedFn idx live).index.fingerprint =
      fingerprint live := by
    unfold buildIndex
    by_cases hc : fingerprint live = idx.fingerprint ∧ idx.tools ≠ []
    · simp only [Bool.not_true, ite_false, if_pos hc, Bool.false_eq_true, not_false_eq_true,
        ite_true]
      exact hc.1.symm
    · simp [hc]
  generalize hJ : (buildIndex true false disk p1 n1 embedFn idx live).index = J at hfp h ⊢
  unfold buildIndex
  simp [hfp, h]

/-- Witness for C2: a fresh index over a one-tool catalog, rebuilt twice. -/
theorem buildIndex_idempotent_witness :
    (buildIndex true false none (.ok ()) ("t1") (fun _ => [(1 : ℚ)]) ⟨[], (""), ("")⟩
        [⟨("a"), some ("d"), none⟩]).index.tools ≠ [] ∧
    buildIndex true false none (.ok ()) ("t2") (fun _ => [(1 : ℚ)])
        (buildIndex true false none (.ok ()) ("t1") (fun _ => [(1 : ℚ)]) ⟨[], (""), ("")⟩
          [⟨("a"), some ("d"), none⟩]).index [⟨("a"), some ("d"), none⟩] =
      ⟨(buildIndex true false none (.ok ()) ("t1") (fun _ => [(1 : ℚ)]) ⟨[], (""), ("")⟩
          [⟨("a"), some ("d"), none⟩]).index, .ok ⟨0, 0, 1⟩, 0⟩ := by
  have h : (buildIndex true false none (.ok ()) ("t1") (fun _ => [(1 : ℚ)]) ⟨[], (""), ("")⟩
      [⟨("a"), some ("d"), none⟩]).index.tools ≠ [] := by
    unfold buildIndex
    simp [buildEntries, seedCache, rebuildCache]
  exact ⟨h, buildIndex_idempotent none (.ok ()) (.ok ()) ("t1") ("t2") _ _ _ h⟩

/-! Lemmas about the embedding cache and the per-tool loop, used for the
incrementality claim. -/

theorem seedCache_eq (ts : List ToolEntry) (acc : List (String × List ℚ)) :
    seedCache ts acc =
      (ts.map fun t => (cacheKey t.name t.description, t.embedding)).reverse ++ acc := by
  induction ts generalizing acc with
  | nil => simp [seedCache]
  | cons t ts ih =>
    have hstep : seedCache (t :: ts) acc =
        seedCache ts ((cacheKey t.name t.description, t.embedding) :: acc) := rfl
    rw [hstep, ih]
    simp

theorem lookup_of_nodup_mem {l : List (String × List ℚ)}
    (hnd : (l.map Prod.fst).Nodup) {k : String} {v : List ℚ} (hm : (k, v) ∈ l) :
    l.lookup k = some v := by
  induction l with
  | nil => cases hm
  | cons h t ih =>
    obtain ⟨k', v'⟩ := h
    simp only [List.map_cons, List.nodup_cons] at hnd
    rcases List.mem_cons.mp hm with heq | hmem
    · cases heq
      simp [List.lookup]
    · have hne : k ≠ k' := by
        rintro rfl
        exact hnd.1 (List.mem_map.mpr ⟨(k, v), hmem, rfl⟩)
      have hbeq : (k == k') = false := beq_eq_false_iff_ne.mpr hne
      simp only [List.lookup, hbeq]
      exact ih hnd.2 hmem

theorem lookup_of_not_mem {l : List (String × List ℚ)} {k : String}
    (h : k ∉ l.map Prod.fst) : l.lookup k = none := by
  rw [List.lookup_eq_none_iff]
  intro p hp
  simp only [bne_iff_ne, ne_eq]
  rintro rfl
  exact h (List.mem_map.mpr ⟨p, hp, rfl⟩)

theorem seedCache_lookup_hit {ts : List ToolEntry}
    (hnd : (ts.map fun t => cacheKey t.name t.description).Nodup)
    {t : ToolEntry} (ht : t ∈ ts) :
    (seedCache ts []).lookup (cacheKey t.name t.description) = some t.embedding := by
  rw [seedCache_eq, List.append_nil]
  refine lookup_of_nodup_mem ?_ ?_
  · rw [List.map_reverse, List.nodup_reverse]
    simpa [Function.comp] using hnd
  · rw [List.mem_reverse]
    exact List.mem_map.mpr ⟨t, ht, rfl⟩

theorem seedCache_lookup_none {ts : List ToolEntry} {k : String}
    (h : k ∉ ts.map fun t => cacheKey t.name t.description) :
    (seedCache ts []).lookup k = none := by
  rw [seedCache_eq, List.append_nil]
  refine lookup_of_not_mem ?_
  rw [List.map_reverse, List.mem_reverse]
  simpa [Function.comp] using h

theorem buildEntries_append (cache : List (String × List ℚ)) (embedFn : String → List ℚ)
    (xs ys : List LiveTool) :
    buildEntries cache embedFn (xs ++ ys) =
      ((buildEntries cache embedFn xs).1 ++ (buildEntries cache embedFn ys).1,
        (buildEntries cache embedFn xs).2 + (buildEntries cache embedFn ys).2) := by
  induction xs with
  | nil => simp [buildEntries]
  | cons t xs ih =>
    simp only [List.cons_append, buildEntries, List.append_eq]
    cases h : cache.lookup (cacheKey t.name (t.description.getD (""))) with
    | some e =>
      simp only [ih]
      simp
    | none =>
      simp only [ih]
      refine Prod.ext ?_ ?_
      · simp
      · simp only
        omega

/-- The relation "this upstream tool keeps this indexed entry's name and
description" (its schema may have changed). -/
def keepsNameDesc (t : ToolEntry) (u : LiveTool) : Prop :=
  u.name = t.name ∧ u.description.getD ("") = t.description

theorem buildEntries_all_hits (cache : List (String × List ℚ)) (embedFn : String → List ℚ)
    {ts : List ToolEntry} {us : List LiveTool} (hrel : List.Forall₂ keepsNameDesc ts us)
    (hhit : ∀ t ∈ ts, cache.lookup (cacheKey t.name t.description) = some t.embedding) :
    (buildEntries cache embedFn us).1.map (·.embedding) = ts.map (·.embedding) ∧
      (buildEntries cache embedFn us).2 = 0 := by
  induction hrel with
  | nil => simp [buildEntries]
  | cons h hs ih =>
    rename_i t u ts' us'
    obtain ⟨hn, hd⟩ := h
    have hkey : cacheKey u.name (u.description.getD ("")) = cacheKey t.name t.description := by
      rw [hn, hd]
    have hlook : cache.lookup (cacheKey u.name (u.description.getD (""))) = some t.embedding := by
      rw [hkey]
      exact hhit t (List.mem_cons_self t ts')
    obtain ⟨ih1, ih2⟩ := ih fun t' ht' => hhit t' (List.mem_cons_of_mem _ ht')
    simp only [buildEntries, hlook]
    exact ⟨by simp [ih1], ih2⟩

/-- CLAIM C1, amended (incrementality of rebuild): suppose the upstream
catalog changed exactly in one entry's description (every other entry keeps
its name and description, in the same order, and the changed entry keeps its
name). Provided additionally that (i) the new catalog's fingerprint differs
from the stored one and (ii) the concatenation-based cache keys
`` `${name}|||${description}` `` neither collide among the previous entries
nor between the changed entry's new key and any previous key, the rebuild
calls the Embedding Provider exactly once and every other entry's embedding
vector in the new snapshot is bit-identical to its vector in the previous
snapshot. Both provisos hold automatically for names/descriptions free of
the separator characters `|` and newline; without them the claim as stated
is false — see the counterexample, where a fingerprint collision makes the
rebuild a no-op with zero provider calls. -/
theorem buildIndex_incremental (disk : Option ToolIndex) (persist : Except String Unit)
    (now at0 fp0 : String) (embedFn : String → List ℚ)
    (A B : List ToolEntry) (p : ToolEntry) (A' B' : List LiveTool) (l : LiveTool)
    (hA : List.Forall₂ keepsNameDesc A A') (hB : List.Forall₂ keepsNameDesc B B')
    (hname : l.name = p.name) (hdesc : l.description.getD ("") ≠ p.description)
    (hkeys : ((A ++ p :: B).map fun t => cacheKey t.name t.description).Nodup)
    (hmiss : cacheKey l.name (l.description.getD ("")) ∉
      (A ++ p :: B).map fun t => cacheKey t.name t.description)
    (hfp : fingerprint (A' ++ l :: B') ≠ fp0) :
    (buildIndex true false disk persist now embedFn ⟨A ++ p :: B, at0, fp0⟩
        (A' ++ l :: B')).embedCalls = 1 ∧
    (buildIndex true false disk persist now embedFn ⟨A ++ p :: B, at0, fp0⟩
        (A' ++ l :: B')).index.tools.map (·.embedding) =
      A.map (·.embedding) ++
        embedFn (l.name ++ (": ") ++ l.description.getD ("")) :: B.map (·.embedding) := by
  have hne : (A ++ p :: B) ≠ [] := by simp
  have hcache_hit : ∀ t ∈ A ++ p :: B,
      (seedCache (A ++ p :: B) []).lookup (cacheKey t.name t.description) = some t.embedding :=
    fun t ht => seedCache_lookup_hit hkeys ht
  have hcache_miss :
      (seedCache (A ++ p :: B) []).lookup (cacheKey l.name (l.description.getD (""))) = none :=
    seedCache_lookup_none hmiss
  have hA_part := buildEntries_all_hits (seedCache (A ++ p :: B) []) embedFn hA
    (fun t ht => hcache_hit t (List.mem_append_left _ ht))
  have hB_part := buildEntries_all_hits (seedCache (A ++ p :: B) []) embedFn hB
    (fun t ht => hcache_hit t (List.mem_append_right _ (List.mem_cons_of_mem _ ht)))
  unfold buildIndex
  rw [if_neg (by simp), if_neg (by simp), if_neg (by
    rintro ⟨h1, -⟩
    exact hfp h1)]
  rw [rebuildCache_of_ne_nil disk _ hne]
  dsimp only
  rw [buildEntries_append]
  simp only [buildEntries, hcache_miss]
  constructor
  · simp [hA_part.2, hB_part.2]
  · simp [hA_part.1, hB_part.1]

/-- Witness for (amended) C1: a single-tool snapshot whose description
changes; the provider runs once and produces the only embedding. -/
theorem buildIndex_incremental_witness :
    (buildIndex true false none (.ok ()) ("t1") (fun _ => [(5 : ℚ)])
        ⟨[⟨("a"), ("d1"), none, [(1 : ℚ)]⟩], ("t0"), ("fp-old")⟩
        [⟨("a"), some ("d3"), none⟩]).embedCalls = 1 ∧
    (buildIndex true false none (.ok ()) ("t1") (fun _ => [(5 : ℚ)])
        ⟨[⟨("a"), ("d1"), none, [(1 : ℚ)]⟩], ("t0"), ("fp-old")⟩
        [⟨("a"), some ("d3"), none⟩]).index.tools.map (·.embedding) = [[(5 : ℚ)]] := by
  have h := buildIndex_incremental none (.ok ()) ("t1") ("t0") ("fp-old")
    (fun _ => [(5 : ℚ)]) [] [] ⟨("a"), ("d1"), none, [(1 : ℚ)]⟩ [] []
    ⟨("a"), some ("d3"), none⟩ List.Forall₂.nil List.Forall₂.nil rfl
    (by decide) (by simp) (by decide)
    (by
      simp only [fingerprint, List.map, List.mergeSort_singleton]
      decide)
  simpa using h

/-! Counterexample data for C1 as stated: two catalogs that differ in exactly
the first entry's description, yet whose fingerprints coincide because the
per-entry strings are joined with separators that also occur inside the
descriptions.  With `u := "n1|x|\x7b\x7d"` and `w := "n1|y|\x7b\x7d"`, the
old entries produce the lines `u\nw` and `u\nw\nu` (sorted in that order)
while the new ones produce `w\nu` and `u\nw\nu` (sorted in the opposite
order); both join to `u\nw\nu\nw\nu`. -/

def cexOldLive : List LiveTool :=
  [⟨("n1"), some ("x|\x7b\x7d\nn1|y"), none⟩,
   ⟨("n1|x|\x7b\x7d\nn1|y|\x7b\x7d\nn1"), some ("x"), none⟩]

def cexNewLive : List LiveTool :=
  [⟨("n1"), some ("y|\x7b\x7d\nn1|x"), none⟩,
   ⟨("n1|x|\x7b\x7d\nn1|y|\x7b\x7d\nn1"), some ("x"), none⟩]

def cexPrev : ToolIndex :=
  ⟨[⟨("n1"), ("x|\x7b\x7d\nn1|y"), none, [(1 : ℚ)]⟩,
    ⟨("n1|x|\x7b\x7d\nn1|y|\x7b\x7d\nn1"), ("x"), none, [(2 : ℚ)]⟩],
   ("t0"), fingerprint cexOldLive⟩

theorem cex_fingerprint_collision : fingerprint cexNewLive = fingerprint cexOldLive := by
  have hmn : cexNewLive.map toolLine =
      [("n1|y|\x7b\x7d\nn1|x|\x7b\x7d"),
       ("n1|x|\x7b\x7d\nn1|y|\x7b\x7d\nn1|x|\x7b\x7d")] := by decide
  have hmo : cexOldLive.map toolLine =
      [("n1|x|\x7b\x7d\nn1|y|\x7b\x7d"),
       ("n1|x|\x7b\x7d\nn1|y|\x7b\x7d\nn1|x|\x7b\x7d")] := by decide
  unfold fingerprint
  rw [hmn, hmo]
  have hold : ([("n1|x|\x7b\x7d\nn1|y|\x7b\x7d"),
      ("n1|x|\x7b\x7d\nn1|y|\x7b\x7d\nn1|x|\x7b\x7d")] : List String).mergeSort
        (fun a b => decide (a ≤ b)) =
      [("n1|x|\x7b\x7d\nn1|y|\x7b\x7d"), ("n1|x|\x7b\x7d\nn1|y|\x7b\x7d\nn1|x|\x7b\x7d")] := by
    refine List.mergeSort_of_sorted ?_
    refine List.Pairwise.cons ?_ (List.pairwise_singleton _ _)
    intro b hb
    rw [List.mem_singleton] at hb
    subst hb
    simp only [decide_eq_true_eq]
    rw [String.le_iff_toList_le]
    decide
  have hnew : ([("n1|y|\x7b\x7d\nn1|x|\x7b\x7d"),
      ("n1|x|\x7b\x7d\nn1|y|\x7b\x7d\nn1|x|\x7b\x7d")] : List String).mergeSort
        (fun a b => decide (a ≤ b)) =
      [("n1|x|\x7b\x7d\nn1|y|\x7b\x7d\nn1|x|\x7b\x7d"), ("n1|y|\x7b\x7d\nn1|x|\x7b\x7d")] := by
    have hs1 : (([("n1|y|\x7b\x7d\nn1|x|\x7b\x7d"),
        ("n1|x|\x7b\x7d\nn1|y|\x7b\x7d\nn1|x|\x7b\x7d")] : List String).mergeSort
          (fun a b => decide (a ≤ b))).Sorted (· ≤ ·) :=
      List.Pairwise.imp (fun hab => by simpa using hab)
        (List.sorted_mergeSort stringLE_trans stringLE_total _)
    have hs2 : ([("n1|x|\x7b\x7d\nn1|y|\x7b\x7d\nn1|x|\x7b\x7d"),
        ("n1|y|\x7b\x7d\nn1|x|\x7b\x7d")] : List String).Sorted (· ≤ ·) := by
      refine List.Pairwise.cons ?_ (List.pairwise_singleton _ _)
      intro b hb
      rw [List.mem_singleton] at hb
      subst hb
      rw [String.le_iff_toList_le]
      decide
    exact List.eq_of_perm_of_sorted
      ((List.mergeSort_perm _ _).trans (List.Perm.swap _ _ [])) hs1 hs2
  rw [hold, hnew]
  decide

theorem cex_buildIndex_noop :
    buildIndex true false none (.ok ()) ("t1") (fun _ => [(9 : ℚ)]) cexPrev cexNewLive =
      ⟨cexPrev, .ok ⟨0, 0, 2⟩, 0⟩ := by
  unfold buildIndex
  rw [if_neg (by simp), if_neg (by simp),
    if_pos ⟨cex_fingerprint_collision, by decide⟩]
  rfl

/-- Counterexample to C1 as stated: the new catalog keeps both entries' names
and the second entry's description, changes exactly the first entry's
description, and the previous snapshot's names are unique — yet the rebuild
calls the Embedding Provider zero times (not exactly once) and returns the
snapshot unchanged, because the changed catalog's fingerprint collides with
the stored one. -/
theorem buildIndex_incremental_counterexample :
    cexNewLive.map (·.name) = cexPrev.tools.map (·.name) ∧
    (cexNewLive.map fun u => u.description.getD ("")).drop 1 =
      (cexPrev.tools.map (·.description)).drop 1 ∧
    (cexNewLive.map fun u => u.description.getD ("")).take 1 ≠
      (cexPrev.tools.map (·.description)).take 1 ∧
    (cexPrev.tools.map (·.name)).Nodup ∧
    (buildIndex true false none (.ok ()) ("t1") (fun _ => [(9 : ℚ)]) cexPrev
      cexNewLive).embedCalls = 0 ∧
    (buildIndex true false none (.ok ()) ("t1") (fun _ => [(9 : ℚ)]) cexPrev
      cexNewLive).index = cexPrev := by
  refine ⟨by decide, by decide, by decide, by decide, ?_, ?_⟩ <;> rw [cex_buildIndex_noop]

/-! The request-router handlers of `createMCPServer`. Upstream invocation
(`routerClient.callTool`) is a parameter `callTool : String → String →
Except String String` mapping a tool name and serialized arguments to the
upstream result or thrown error; `String(e)` stringification is the identity
on the error channel. Caller inputs that may be absent or non-strings are
`Option`-valued, `none` covering both. -/

/-- Error text of the discover readiness gate. -/
def notReadyMsg : String :=
  "MCP Router is not connected yet. Tools will be available shortly — try again in a few seconds."

/-- Error text of the execute/batch connectivity gate. -/
def notConnectedMsg : String := "MCP Router is not connected. Please wait for reconnection."

/-- Error text of the query validation. -/
def badQueryMsg : String := "query is required and must be a non-empty string."

/-- Error text of the execute tool-name validation. -/
def badToolNameMsg : String := "tool_name is required and must be a non-empty string."

/-- Error text of the batch calls-array validation. -/
def badCallsMsg : String :=
  "calls must be a non-empty array of \x7btool_name, arguments\x7d objects."

/-- Error text of the batch per-entry name validation. -/
def badBatchNameMsg : String := "Each call must have a non-empty tool_name string."

/-- Truthiness of `s.trim()` in JavaScript, negated: the trimmed string is
empty exactly when every character of `s` is whitespace, which is how we
state it (the byte-level implementation of `String.trim` is not
kernel-reducible, the character-level formulation is). -/
def isBlank (s : String) : Bool := s.data.all (fun c => c.isWhitespace)

/-- The check `typeof v === "string" && v.trim()` used for tool names: a
present string whose trim is non-empty. -/
def validName : Option String → Bool
  | some s => ! isBlank s
  | none => false

/-- Outcome of the `execute_tool` handler: a validation/readiness error
response, or a call forwarded upstream with the recorded name and arguments
(arguments default to the empty object when absent). -/
inductive ExecOutcome where
  | invalid (msg : String)
  | forwarded (tool_name : String) (args : String) (upstream : Except String String)

/-- The `execute_tool` handler. -/
def executeTool (connected : Bool) (callTool : String → String → Except String String)
    (tool_name : Option String) (arguments : Option String) : ExecOutcome :=
  if ¬ connected then .invalid notConnectedMsg
  else if ¬ validName tool_name then .invalid badToolNameMsg
  else .forwarded (tool_name.getD ("")) (arguments.getD ("\x7b\x7d"))
    (callTool (tool_name.getD ("")) (arguments.getD ("\x7b\x7d")))

/-- One entry of the `calls` array of `batch_execute`. -/
structure BatchCall where
  tool_name : Option String
  arguments : Option String
deriving DecidableEq, Repr

/-- One element of the result array of `batch_execute`: the tool name tagged
with success (carrying the upstream result) or failure (carrying the
stringified error). -/
inductive CallResult where
  | success (tool_name : String) (result : String)
  | failure (tool_name : String) (error : String)
deriving DecidableEq, Repr

/-- Reply of the `batch_execute` handler. -/
inductive BatchReply where
  | invalid (msg : String)
  | results (rs : List CallResult)
deriving DecidableEq, Repr

/-- One dispatched batch call: the `try/catch` around
`routerClient.callTool` captures each call's success or failure
independently of its siblings. -/
def dispatchCall (callTool : String → String → Except String String) (c : BatchCall) :
    CallResult :=
  match callTool (c.tool_name.getD ("")) (c.arguments.getD ("\x7b\x7d")) with
  | .ok r => .success (c.tool_name.getD ("")) r
  | .error e => .failure (c.tool_name.getD ("")) e

/-- The `batch_execute` handler. Besides the reply it returns the list of
`(name, arguments)` pairs actually sent upstream, so that "no call is
dispatched" on validation failure is an assertable fact. -/
def batchExecute (connected : Bool) (callTool : String → String → Except String String)
    (calls : Option (List BatchCall)) : BatchReply × List (String × String) :=
  if ¬ connected then (.invalid notConnectedMsg, [])
  else
    match calls with
    | none => (.invalid badCallsMsg, [])
    | some cs =>
      if cs.isEmpty then (.invalid badCallsMsg, [])
      else if cs.any (fun c => ! validName c.tool_name) then (.invalid badBatchNameMsg, [])
      else
        (.results (cs.map (dispatchCall callTool)),
         cs.map fun c => (c.tool_name.getD (""), c.arguments.getD ("\x7b\x7d")))

/-- Reply of the `discover_tools` handler. -/
inductive DiscoverReply where
  | failed (msg : String)
  | results (items : List DiscoverItem)

/-- The `discover_tools` handler: readiness gate
(`!routerConnected || toolIndex.tools.length === 0`), then query validation,
then embedding and ranking. -/
noncomputable def discoverHandler (connected : Bool) (idx : ToolIndex)
    (embedFn : String → List ℚ) (defaultLimit : ℕ) (query : Option String)
    (limit : Option ℕ) : DiscoverReply :=
  if ¬ connected ∨ idx.tools = [] then .failed notReadyMsg
  else
    match query with
    | none => .failed badQueryMsg
    | some q =>
      if isBlank q then .failed badQueryMsg
      else .results (discoverResults (embedFn q) idx.tools (limit.getD defaultLimit))

/-- CLAIM C7 (batch isolation): for a non-empty calls list, (a) if any entry
has a missing/empty tool name the handler returns the validation error and
dispatches nothing; (b) otherwise every call is dispatched, the result list
has the same length and order as the input, and each element is the
success/failure tag of its own call's upstream outcome alone — one failing
call cannot affect its siblings, since element `i` is a function of call `i`
only. -/
theorem batch_execute_isolation (callTool : String → String → Except String String)
    (cs : List BatchCall) (hne : cs ≠ []) :
    ((∃ c ∈ cs, validName c.tool_name = false) →
      batchExecute true callTool (some cs) = (.invalid badBatchNameMsg, [])) ∧
    ((∀ c ∈ cs, validName c.tool_name = true) →
      batchExecute true callTool (some cs) =
        (.results (cs.map (dispatchCall callTool)),
          cs.map fun c => (c.tool_name.getD (""), c.arguments.getD ("\x7b\x7d"))) ∧
      (cs.map (dispatchCall callTool)).length = cs.length ∧
      (∀ i : ℕ, (cs.map (dispatchCall callTool))[i]? = (cs[i]?).map (dispatchCall callTool)) ∧
      ∀ c ∈ cs, dispatchCall callTool c =
        (match callTool (c.tool_name.getD ("")) (c.arguments.getD ("\x7b\x7d")) with
          | .ok r => .success (c.tool_name.getD ("")) r
          | .error e => .failure (c.tool_name.getD ("")) e)) := by
  constructor
  · rintro ⟨c, hc, hbad⟩
    unfold batchExecute
    rw [if_neg (by simp)]
    dsimp only
    rw [if_neg (by simpa using hne), if_pos ?_]
    exact List.any_eq_true.mpr ⟨c, hc, by simp [hbad]⟩
  · intro hall
    refine ⟨?_, by simp, fun i => List.getElem?_map _ _ i, fun c _ => rfl⟩
    unfold batchExecute
    rw [if_neg (by simp)]
    dsimp only
    rw [if_neg (by simpa using hne), if_neg ?_]
    simp only [List.any_eq_true, not_exists, not_and, Bool.not_eq_true]
    intro c hc
    simp [hall c hc]

/-- Witness for C7: three calls where exactly the second one's upstream
invocation fails; the reply preserves length and order and marks only the
second as failed. -/
theorem batch_execute_isolation_witness :
    ([⟨some ("a"), none⟩, ⟨some ("b"), some ("\x7b\x7d")⟩, ⟨some ("c"), none⟩] :
      List BatchCall) ≠ [] ∧
    batchExecute true
        (fun n _ => if n = ("b") then .error ("boom") else .ok ("done"))
        (some [⟨some ("a"), none⟩, ⟨some ("b"), some ("\x7b\x7d")⟩, ⟨some ("c"), none⟩]) =
      (.results [.success ("a") ("done"), .failure ("b") ("boom"), .success ("c") ("done")],
        [(("a"), ("\x7b\x7d")), (("b"), ("\x7b\x7d")), (("c"), ("\x7b\x7d"))]) := by
  refine ⟨by decide, ?_⟩
  have h := (batch_execute_isolation
    (fun n _ => if n = ("b") then .error ("boom") else .ok ("done"))
    [⟨some ("a"), none⟩, ⟨some ("b"), some ("\x7b\x7d")⟩, ⟨some ("c"), none⟩]
    (by decide)).2 (by decide)
  exact h.1.trans (by decide)

/-- CLAIM C8, amended (discover readiness gating): for a valid non-empty
query, `discover_tools` fails with the NotReady error exactly when the
upstream is disconnected or the current snapshot contains zero tools; in
every other state it embeds the query and returns the ranked results. The
original claim's "no successful rebuild has ever completed" is not the
condition the code tests: a successful rebuild against an empty upstream
catalog leaves zero tools and discover still reports NotReady — see the
counterexample. -/
theorem discover_readiness (connected : Bool) (idx : ToolIndex) (embedFn : String → List ℚ)
    (dl : ℕ) (q : String) (lim : Option ℕ) (hq : isBlank q = false) :
    (discoverHandler connected idx embedFn dl (some q) lim = .failed notReadyMsg ↔
      (connected = false ∨ idx.tools = [])) ∧
    (connected = true → idx.tools ≠ [] →
      discoverHandler connected idx embedFn dl (some q) lim =
        .results (discoverResults (embedFn q) idx.tools (lim.getD dl))) := by
  have hready : connected = true → idx.tools ≠ [] →
      discoverHandler connected idx embedFn dl (some q) lim =
        .results (discoverResults (embedFn q) idx.tools (lim.getD dl)) := by
    intro h1 h2
    unfold discoverHandler
    rw [if_neg (by simp [h1, h2])]
    simp [hq]
  refine ⟨⟨?_, ?_⟩, hready⟩
  · intro h
    by_contra hc
    push_neg at hc
    have h1 : connected = true := by
      cases connected
      · exact absurd rfl hc.1
      · rfl
    rw [hready h1 hc.2] at h
    exact DiscoverReply.noConfusion h
  · intro hc
    unfold discoverHandler
    rw [if_pos ?_]
    rcases hc with hc | hc
    · exact Or.inl (by simp [hc])
    · exact Or.inr hc

/-- Witness for C8 at a connected, non-empty snapshot and the query "x". -/
theorem discover_readiness_witness :
    isBlank ("x") = false ∧
    discoverHandler true ⟨[⟨("a"), ("d"), none, [(1 : ℚ)]⟩], ("t0"), ("fp")⟩
        (fun _ => [(1 : ℚ)]) 10 (some ("x")) none =
      .results (discoverResults [(1 : ℚ)] [⟨("a"), ("d"), none, [(1 : ℚ)]⟩] 10) := by
  refine ⟨by decide, ?_⟩
  exact (discover_readiness true ⟨[⟨("a"), ("d"), none, [(1 : ℚ)]⟩], ("t0"), ("fp")⟩
    (fun _ => [(1 : ℚ)]) 10 ("x") none (by decide)).2 rfl (by decide)

/-- Counterexample to C8 as stated: starting from the initial empty state, a
rebuild against an empty upstream catalog completes successfully (it returns
its counts rather than being skipped), yet a subsequent discover with a
valid query and a connected upstream still fails with the NotReady error —
the code gates on `tools.length === 0`, not on rebuild history. -/
theorem discover_readiness_counterexample :
    (buildIndex true false none (.ok ()) ("t1") (fun _ => []) ⟨[], (""), ("")⟩ []).result =
      .ok ⟨0, 0, 0⟩ ∧
    discoverHandler true
        (buildIndex true false none (.ok ()) ("t1") (fun _ => []) ⟨[], (""), ("")⟩ []).index
        (fun _ => []) 10 (some ("x")) none =
      .failed notReadyMsg := by
  have hrun : buildIndex true false none (.ok ()) ("t1") (fun _ => []) ⟨[], (""), ("")⟩ [] =
      ⟨⟨[], ("t1"), fingerprint []⟩, .ok ⟨0, 0, 0⟩, 0⟩ := by
    unfold buildIndex
    rw [if_neg (by simp), if_neg (by simp), if_neg (by simp)]
    simp [rebuildCache, seedCache, buildEntries, Except.map]
  rw [hrun]
  constructor
  · rfl
  · unfold discoverHandler
    rw [if_pos (Or.inr rfl)]

/-- CLAIM C9 (persistence failure is non-fatal): the spec requires a failing
snapshot write to be logged and the rebuild counts still returned; the code
disagrees. `buildIndex` wraps its body in `try ... finally` with no `catch`,
so a `writeFileSync`/`renameSync` error propagates out of `buildIndex` and
the caller never receives the counts — although the in-memory snapshot was
already replaced (the assignment precedes the write). This theorem exhibits
the divergence at a concrete rebuild whose write fails. -/
theorem buildIndex_persist_failure :
    (buildIndex true false none (.error ("EACCES")) ("t1") (fun _ => [(1 : ℚ)])
        ⟨[], (""), ("")⟩ [⟨("a"), some ("d"), none⟩]).result = .error ("EACCES") ∧
    (buildIndex true false none (.error ("EACCES")) ("t1") (fun _ => [(1 : ℚ)])
        ⟨[], (""), ("")⟩ [⟨("a"), some ("d"), none⟩]).index.tools =
      [⟨("a"), ("d"), none, [(1 : ℚ)]⟩] := by
  constructor <;> {
    unfold buildIndex
    rw [if_neg (by simp), if_neg (by simp), if_neg (by simp)]
    simp [rebuildCache, seedCache, buildEntries, Except.map]
  }

/-- CLAIM C10 (implicit default for missing arguments): an `execute_tool`
request without an `arguments` field, and a batch entry without one, are
forwarded upstream with the serialized empty object as arguments
(`args?.arguments ?? \x7b\x7d` resp. `call.arguments ?? \x7b\x7d`) instead of
being rejected or forwarded as undefined. -/
theorem default_empty_arguments (callTool : String → String → Except String String)
    (n : String) (hn : validName (some n) = true)
    (cs : List BatchCall) (hne : cs ≠ []) (hv : ∀ c ∈ cs, validName c.tool_name = true) :
    executeTool true callTool (some n) none =
      .forwarded n ("\x7b\x7d") (callTool n ("\x7b\x7d")) ∧
    (batchExecute true callTool (some cs)).2 =
      cs.map fun c => (c.tool_name.getD (""), c.arguments.getD ("\x7b\x7d")) := by
  constructor
  · unfold executeTool
    rw [if_neg (by simp), if_neg (by simp [hn])]
    rfl
  · have hb := ((batch_execute_isolation callTool cs hne).2 hv).1
    rw [hb]

/-- Witness for C10: a nameless-arguments execute call and a two-entry batch
where the first entry has no arguments field. -/
theorem default_empty_arguments_witness :
    validName (some ("a")) = true ∧
    executeTool true (fun _ _ => .ok ("r")) (some ("a")) none =
      .forwarded ("a") ("\x7b\x7d") ((fun _ _ => Except.ok ("r")) ("a") ("\x7b\x7d")) ∧
    (batchExecute true (fun _ _ => .ok ("r"))
        (some [⟨some ("a"), none⟩, ⟨some ("b"), some ("\x7b1\x7d")⟩])).2 =
      [(("a"), ("\x7b\x7d")), (("b"), ("\x7b1\x7d"))] := by
  have h := default_empty_arguments (fun _ _ => .ok ("r")) ("a") (by decide)
    [⟨some ("a"), none⟩, ⟨some ("b"), some ("\x7b1\x7d")⟩] (by decide) (by decide)
  exact ⟨by decide, h.1, h.2.trans (by decide)⟩

end VectorProxy
